import Mathlib

/-!
# Verification of the METAR dashboard (`src/app.py`)

A shallow embedding of the field-extraction, report-assembly and PDF-export
logic of `src/app.py`, together with proofs of the spec's testable
properties.  Python strings are modelled as `String`/`List Char`;
`re.search` with the fixed patterns of the source is modelled by a
leftmost-match scanner (`scanFind`) over the list of characters, trying the
pattern at every position from the left, exactly as the regex engine does.
-/

namespace Metaf

/-- Leftmost-match scanner: try the position matcher `p` at every suffix of
the character list, left to right, returning the first success.  This is the
model of Python's `re.search` for the fixed-width patterns used in
`src/app.py`. -/
def scanFind {α : Type} (p : List Char → Option α) : List Char → Option α
  | [] => p []
  | c :: cs =>
    match p (c :: cs) with
    | some a => some a
    | none => scanFind p cs

theorem scanFind_nil {α : Type} (p : List Char → Option α) :
    scanFind p [] = p [] := rfl

theorem scanFind_cons {α : Type} (p : List Char → Option α) (c : Char)
    (cs : List Char) :
    scanFind p (c :: cs) =
      match p (c :: cs) with
      | some a => some a
      | none => scanFind p cs := rfl

/-- The scanner fails exactly when the position matcher fails at every
suffix. -/
theorem scanFind_eq_none_iff {α : Type} (p : List Char → Option α)
    (cs : List Char) :
    scanFind p cs = none ↔ ∀ ds : List Char, ds <:+ cs → p ds = none := by
  induction cs with
  | nil =>
    simp only [scanFind_nil]
    constructor
    · intro h ds hds
      rw [List.suffix_nil.mp hds]
      exact h
    · intro h
      exact h [] List.nil_suffix
  | cons c cs ih =>
    rw [scanFind_cons]
    constructor
    · intro h ds hds
      rcases List.suffix_cons_iff.mp hds with h1 | h1
      · subst h1
        cases hp : p (c :: cs) with
        | none => rfl
        | some a => rw [hp] at h; exact absurd h (by simp)
      · cases hp : p (c :: cs) with
        | none => rw [hp] at h; exact (ih.mp h) ds h1
        | some a => rw [hp] at h; exact absurd h (by simp)
    · intro h
      have hp : p (c :: cs) = none := h (c :: cs) (List.suffix_refl _)
      rw [hp]
      exact ih.mpr fun ds hds => h ds (hds.trans (List.suffix_cons c cs))

/-- Soundness of the scanner: a hit comes from some suffix. -/
theorem scanFind_eq_some {α : Type} (p : List Char → Option α)
    (cs : List Char) (a : α) (h : scanFind p cs = some a) :
    ∃ ds : List Char, ds <:+ cs ∧ p ds = some a := by
  induction cs with
  | nil => exact ⟨[], List.nil_suffix, h⟩
  | cons c cs ih =>
    rw [scanFind_cons] at h
    cases hp : p (c :: cs) with
    | some b =>
      rw [hp] at h
      simp only [Option.some.injEq] at h
      exact ⟨c :: cs, List.suffix_refl _, by rw [hp, h]⟩
    | none =>
      rw [hp] at h
      rcases ih h with ⟨ds, hds, hpds⟩
      exact ⟨ds, hds.trans (List.suffix_cons c cs), hpds⟩

/-- If the matcher fails at every position that starts strictly before
`rest`, the scan over `pre ++ rest` is the scan over `rest`. -/
theorem scanFind_append {α : Type} (p : List Char → Option α)
    (pre rest : List Char)
    (h : ∀ t : List Char, t <:+ pre → t ≠ [] → p (t ++ rest) = none) :
    scanFind p (pre ++ rest) = scanFind p rest := by
  induction pre with
  | nil => rfl
  | cons c pre ih =>
    have hc : p ((c :: pre) ++ rest) = none :=
      h (c :: pre) (List.suffix_refl _) (by simp)
    rw [List.cons_append, scanFind_cons, ← List.cons_append, hc]
    exact ih fun t ht hne =>
      h t (ht.trans (List.suffix_cons c pre)) hne

/-! ## The METAR field extractors of `src/app.py`

Each extractor mirrors one regex of the source:
`wind` uses `(\d{3})(\d{2})KT`, `visibility` uses ` (\d{4}) `,
`temp_dew` uses ` (M?\d{2})/(M?\d{2})`, `qnh` uses ` Q(\d{4})`.
`matchXAt` is the attempt of the pattern at one position; the captures are
returned as the captured character lists, exactly as `re` group strings. -/

/-- Position matcher for `(\d{3})(\d{2})KT`. -/
def matchWindAt : List Char → Option (List Char × List Char)
  | a :: b :: c :: d :: e :: k :: t :: _ =>
    if a.isDigit && b.isDigit && c.isDigit && d.isDigit && e.isDigit
        && k == 'K' && t == 'T' then
      some ([a, b, c], [d, e])
    else none
  | _ => none

/-- Position matcher for ` (\d{4}) `. -/
def matchVisAt : List Char → Option (List Char)
  | s1 :: a :: b :: c :: d :: s2 :: _ =>
    if s1 == ' ' && a.isDigit && b.isDigit && c.isDigit && d.isDigit
        && s2 == ' ' then
      some [a, b, c, d]
    else none
  | _ => none

/-- One `M?\d{2}` group: an optional leading `M` marker then two digits,
returning the captured characters and the remaining input.  The greedy `M?`
is deterministic here because `M` is not a digit. -/
def tdNum (cs : List Char) : Option (List Char × List Char) :=
  match cs with
  | c1 :: c2 :: rest =>
    if c1 == 'M' then
      match rest with
      | d2 :: rest2 =>
        if c2.isDigit && d2.isDigit then some (['M', c2, d2], rest2)
        else none
      | [] => none
    else if c1.isDigit && c2.isDigit then some ([c1, c2], rest)
    else none
  | _ => none

/-- Position matcher for ` (M?\d{2})/(M?\d{2})`. -/
def matchTDAt (cs : List Char) : Option (List Char × List Char) :=
  match cs with
  | [] => none
  | c :: rest =>
    if c == ' ' then
      match tdNum rest with
      | some (g1, rest1) =>
        match rest1 with
        | [] => none
        | c2 :: rest2 =>
          if c2 == '/' then
            match tdNum rest2 with
            | some (g2, _) => some (g1, g2)
            | none => none
          else none
      | none => none
    else none

/-- Position matcher for ` Q(\d{4})`. -/
def matchQnhAt : List Char → Option (List Char)
  | s :: q :: a :: b :: c :: d :: _ =>
    if s == ' ' && q == 'Q' && a.isDigit && b.isDigit && c.isDigit
        && d.isDigit then
      some [a, b, c, d]
    else none
  | _ => none

/-- `wind(m)` of `src/app.py`: formats the two captures, `"-"` on no match. -/
def wind (m : String) : String :=
  match scanFind matchWindAt m.data with
  | some (g1, g2) =>
    String.mk (g1 ++ String.data "° / " ++ g2 ++ String.data " kt")
  | none => "-"

/-- `visibility(m)` of `src/app.py`. -/
def visibility (m : String) : String :=
  match scanFind matchVisAt m.data with
  | some g => String.mk (g ++ String.data " m")
  | none => "-"

/-- `temp_dew(m)` of `src/app.py`. -/
def temp_dew (m : String) : String :=
  match scanFind matchTDAt m.data with
  | some (g1, g2) =>
    String.mk (g1 ++ String.data " / " ++ g2 ++ String.data " °C")
  | none => "-"

/-- `qnh(m)` of `src/app.py`. -/
def qnh (m : String) : String :=
  match scanFind matchQnhAt m.data with
  | some g => String.mk (g ++ String.data " hPa")
  | none => "-"

/-- Numeric value of one decimal digit character. -/
def digitVal (c : Char) : Nat := c.toNat - 48

/-- Numeric value of a string of decimal digits, most significant first. -/
def natOfDigits (l : List Char) : Nat :=
  l.foldl (fun acc c => acc * 10 + digitVal c) 0

/-- The wind extraction read as integers: the numeric values of the two
regex captures of `wind`. -/
def windVals (m : String) : Option (Nat × Nat) :=
  (scanFind matchWindAt m.data).map fun p =>
    (natOfDigits p.1, natOfDigits p.2)

/-- The visibility extraction read as an integer. -/
def visVal (m : String) : Option Nat :=
  (scanFind matchVisAt m.data).map natOfDigits

/-- The pressure extraction read as an integer. -/
def qnhVal (m : String) : Option Nat :=
  (scanFind matchQnhAt m.data).map natOfDigits

/-- Modelled from the spec: the numeric sign convention for
temperature/dew-point captures — "a leading marker letter preceding a
two-digit number denotes a negative value".  `src/app.py` only displays the
captured text; the integer reading of a capture is not in the source. -/
def tempValue (g : List Char) : Int :=
  match g with
  | 'M' :: ds => -(natOfDigits ds : Int)
  | ds => (natOfDigits ds : Int)

/-- The temperature/dew-point extraction read as signed integers. -/
def tempDewVals (m : String) : Option (Int × Int) :=
  (scanFind matchTDAt m.data).map fun p => (tempValue p.1, tempValue p.2)

/-- Substring test, modelled as: some suffix has `pat` as a prefix. -/
def hasSub (pat cs : List Char) : Bool :=
  (scanFind (fun ds => if pat.isPrefixOf ds then some () else none) cs).isSome

/-- Modelled from the spec: the rain phenomena flag, "detected by substring
search, not positional parsing" — a search for `RA` anywhere in the line.
No phenomena-flag code exists in `src/app.py`. -/
def rainFlag (m : String) : Bool := hasSub (String.data "RA") m.data

/-- Position matcher for a `DDHHMMZ` time group: six digits then `Z`. -/
def matchTimeAt : List Char → Option Unit
  | a :: b :: c :: d :: e :: f :: z :: _ =>
    if a.isDigit && b.isDigit && c.isDigit && d.isDigit && e.isDigit
        && f.isDigit && z == 'Z' then
      some ()
    else none
  | _ => none

/-- Whether the line contains a time group matching `DDHHMMZ`. -/
def hasTimeGroup (m : String) : Bool := (scanFind matchTimeAt m.data).isSome

/-- The `qam_text` list built at lines 71–82 of `src/app.py`, parameterised
by the formatted clock string and the fetched METAR text. -/
def qamText (now metar : String) : List String :=
  [ "METEOROLOGICAL REPORT (QAM)",
    "DATE / TIME (UTC) : " ++ now,
    "AERODROME        : WIBB",
    "SURFACE WIND     : " ++ wind metar,
    "VISIBILITY       : " ++ visibility metar,
    "TEMP / DEWPOINT  : " ++ temp_dew metar,
    "QNH              : " ++ qnh metar,
    "",
    "RAW METAR:",
    metar ]

/-! ## The PDF generator of `src/app.py` (lines 85–104)

`generate_pdf` builds a five-object PDF byte string.  All fixed parts are
ASCII, so the byte string is modelled as a `String` (the Python source
concatenates ASCII byte literals with `content.encode()`, the UTF-8
encoding of the content string; byte counts are treated separately via
`byteSize`). -/

/-- Python's `str.replace` for a single-character pattern: replace every
occurrence of `target` by `repl`. -/
def pyReplaceChar (target : Char) (repl : List Char) : List Char → List Char
  | [] => []
  | c :: cs =>
    (if c == target then repl else [c]) ++ pyReplaceChar target repl cs

/-- The escaping of line 88 of `src/app.py`:
`l.replace("\\", "\\\\").replace("(", "\\(").replace(")", "\\)")`. -/
def escape (l : List Char) : List Char :=
  pyReplaceChar ')' ['\\', ')']
    (pyReplaceChar '(' ['\\', '(']
      (pyReplaceChar '\\' ['\\', '\\'] l))

/-- The content-stream fragment emitted for one input line:
`({safe}) Tj\n0 -14 Td\n`. -/
def lineSeg (l : String) : String :=
  "(" ++ String.mk (escape l.data) ++ ") Tj\n0 -14 Td\n"

/-- The content stream built by the loop of lines 86–90: the `BT` header,
one positioned text fragment per line, then `ET`. -/
def contentStr (lines : List String) : String :=
  (lines.foldl (fun acc l => acc ++ lineSeg l) "BT\n/F1 10 Tf\n72 800 Td\n")
    ++ "ET"

/-- The `/Length` value interpolated into object 2 of the PDF:
`str(len(content))` in the source, i.e. the character count of the content
string. -/
def declaredLen (lines : List String) : Nat := (contentStr lines).length

/-- `generate_pdf(lines)` of `src/app.py`, byte for byte. -/
def genPdf (lines : List String) : String :=
  "%PDF-1.4\n"
    ++ "1 0 obj<< /Type /Font /Subtype /Type1 /BaseFont /Helvetica >>endobj\n"
    ++ "2 0 obj<< /Length " ++ toString (declaredLen lines)
    ++ " >>stream\n" ++ contentStr lines
    ++ "\nendstream endobj\n"
    ++ "3 0 obj<< /Type /Page /Parent 4 0 R /Contents 2 0 R "
    ++ "/Resources<< /Font<< /F1 1 0 R >> >> >>endobj\n"
    ++ "4 0 obj<< /Type /Pages /Kids [3 0 R] /Count 1 "
    ++ "/MediaBox [0 0 595 842] >>endobj\n"
    ++ "5 0 obj<< /Type /Catalog /Pages 4 0 R >>endobj\n"
    ++ "xref\n0 6\n0000000000 65535 f \n"
    ++ "trailer<< /Size 6 /Root 5 0 R >>\n%%EOF"

/-- Concatenation of a list of strings. -/
def strConcat (l : List String) : String := l.foldr (· ++ ·) ""

/-- The five indirect objects of the emitted document, in file order: the
font resource, the content stream, the page, the pages node, the catalog. -/
def pdfObjects (lines : List String) : List String :=
  [ "1 0 obj<< /Type /Font /Subtype /Type1 /BaseFont /Helvetica >>endobj\n",
    "2 0 obj<< /Length " ++ toString (declaredLen lines) ++ " >>stream\n"
      ++ contentStr lines ++ "\nendstream endobj\n",
    "3 0 obj<< /Type /Page /Parent 4 0 R /Contents 2 0 R "
      ++ "/Resources<< /Font<< /F1 1 0 R >> >> >>endobj\n",
    "4 0 obj<< /Type /Pages /Kids [3 0 R] /Count 1 "
      ++ "/MediaBox [0 0 595 842] >>endobj\n",
    "5 0 obj<< /Type /Catalog /Pages 4 0 R >>endobj\n" ]

/-- The fixed trailer bytes after the last object. -/
def pdfTail : String :=
  "xref\n0 6\n0000000000 65535 f \ntrailer<< /Size 6 /Root 5 0 R >>\n%%EOF"

/-- Scanner for the body of a PDF text literal, as a conforming reader
consumes it: a backslash makes the next character literal, an unescaped
`)` terminates the literal, an unescaped `(` would open a nested literal
and is rejected by this flat scanner.  Returns the unescaped text and the
input remaining after the closing delimiter. -/
def litScan : List Char → Option (List Char × List Char)
  | [] => none
  | c :: cs =>
    if c == '\\' then
      match cs with
      | [] => none
      | d :: cs2 => (litScan cs2).map fun p => (d :: p.1, p.2)
    else if c == ')' then some ([], cs)
    else if c == '(' then none
    else (litScan cs).map fun p => (c :: p.1, p.2)

/-- Reader for a complete `(...)` text literal. -/
def pdfLitParse : List Char → Option (List Char × List Char)
  | '(' :: cs => litScan cs
  | _ => none

/-- Expansion of one character under the escaping of line 88. -/
def expandEsc (c : Char) : List Char :=
  if c == '\\' || c == '(' || c == ')' then ['\\', c] else [c]

/-- UTF-8 byte length of a character sequence (each character encodes
independently in UTF-8). -/
def byteSize (l : List Char) : Nat := (l.map Char.utf8Size).sum

/-! ## The network call sites of tab 1 (lines 46–49, 68, 112–117)

The render is synchronous; each fetch either yields a payload or fails
(timeout or non-2xx status after `raise_for_status`).  The render is
modelled as a function of the two fetch outcomes: `fetch_metar()` at line
68 is called with no surrounding `try`, the satellite image fetch at lines
112–117 is wrapped in `try/except`. -/

inductive NetErr : Type
  | timeout : NetErr
  | badStatus : Nat → NetErr
deriving DecidableEq

inductive Widget : Type
  | image : String → Widget
  | warning : String → Widget
deriving DecidableEq

structure Tab1Page where
  qam : List String
  rawShown : String
  satellite : Widget
deriving DecidableEq

/-- The tab-1 render: the METAR fetch result is consumed unguarded at line
68 (an error propagates), the satellite fetch is guarded by
`try/except` at lines 112–117 (an error renders the static warning). -/
def tab1Render (now : String) (metarFetch satFetch : Except NetErr String) :
    Except NetErr Tab1Page :=
  match metarFetch with
  | Except.error e => Except.error e
  | Except.ok metar =>
    Except.ok
      { qam := qamText now metar
        rawShown := metar
        satellite :=
          match satFetch with
          | Except.ok b => Widget.image b
          | Except.error _ =>
            Widget.warning "Satellite imagery temporarily unavailable." }

/-! ## Pattern-occurrence predicates and matcher lemmas -/

/-- A digit character is not any particular non-digit character. -/
theorem isDigit_ne {c t : Char} (h : c.isDigit = true) (ht : t.isDigit = false) :
    c ≠ t := by
  intro he
  rw [he, ht] at h
  exact Bool.false_ne_true h

/-- The line starts with a `\d{3}\d{2}KT` wind group. -/
def StartsWind (ds : List Char) : Prop :=
  ∃ a b c d e rest, ds = a :: b :: c :: d :: e :: 'K' :: 'T' :: rest ∧
    a.isDigit = true ∧ b.isDigit = true ∧ c.isDigit = true ∧
    d.isDigit = true ∧ e.isDigit = true

/-- The line contains a `\d{3}\d{2}KT` wind group somewhere. -/
def HasWindPat (cs : List Char) : Prop :=
  ∃ ds, ds <:+ cs ∧ StartsWind ds

theorem matchWindAt_shape {ds : List Char} {g1 g2 : List Char}
    (h : matchWindAt ds = some (g1, g2)) :
    ∃ a b c d e rest, ds = a :: b :: c :: d :: e :: 'K' :: 'T' :: rest ∧
      a.isDigit = true ∧ b.isDigit = true ∧ c.isDigit = true ∧
      d.isDigit = true ∧ e.isDigit = true ∧ g1 = [a, b, c] ∧ g2 = [d, e] := by
  rcases ds with _ | ⟨a, _ | ⟨b, _ | ⟨c, _ | ⟨d, _ | ⟨e, _ | ⟨k, _ | ⟨t, rest⟩⟩⟩⟩⟩⟩⟩ <;>
    simp only [matchWindAt] at h <;>
    try exact Option.noConfusion h
  split at h
  · rename_i hcond
    simp only [Bool.and_eq_true, beq_iff_eq] at hcond
    obtain ⟨⟨⟨⟨⟨⟨ha, hb⟩, hc⟩, hd⟩, he⟩, hk⟩, ht⟩ := hcond
    simp only [Option.some.injEq, Prod.mk.injEq] at h
    exact ⟨a, b, c, d, e, rest, by rw [hk, ht], ha, hb, hc, hd, he,
      h.1.symm, h.2.symm⟩
  · exact absurd h (by simp)

theorem matchWindAt_pos {a b c d e : Char} (rest : List Char)
    (ha : a.isDigit = true) (hb : b.isDigit = true) (hc : c.isDigit = true)
    (hd : d.isDigit = true) (he : e.isDigit = true) :
    matchWindAt (a :: b :: c :: d :: e :: 'K' :: 'T' :: rest) =
      some ([a, b, c], [d, e]) := by
  simp [matchWindAt, ha, hb, hc, hd, he]

theorem matchWindAt_none_iff (ds : List Char) :
    matchWindAt ds = none ↔ ¬ StartsWind ds := by
  constructor
  · rintro h ⟨a, b, c, d, e, rest, rfl, ha, hb, hc, hd, he⟩
    rw [matchWindAt_pos rest ha hb hc hd he] at h
    exact absurd h (by simp)
  · intro h
    cases hm : matchWindAt ds with
    | none => rfl
    | some p =>
      obtain ⟨g1, g2⟩ := p
      obtain ⟨a, b, c, d, e, rest, rfl, ha, hb, hc, hd, he, _, _⟩ :=
        matchWindAt_shape hm
      exact absurd ⟨a, b, c, d, e, rest, rfl, ha, hb, hc, hd, he⟩ h

/-- The line starts with a ` \d{4} ` visibility group. -/
def StartsVis (ds : List Char) : Prop :=
  ∃ a b c d rest, ds = ' ' :: a :: b :: c :: d :: ' ' :: rest ∧
    a.isDigit = true ∧ b.isDigit = true ∧ c.isDigit = true ∧ d.isDigit = true

/-- The line contains a ` \d{4} ` visibility group somewhere. -/
def HasVisPat (cs : List Char) : Prop := ∃ ds, ds <:+ cs ∧ StartsVis ds

theorem matchVisAt_shape {ds g : List Char}
    (h : matchVisAt ds = some g) :
    ∃ a b c d rest, ds = ' ' :: a :: b :: c :: d :: ' ' :: rest ∧
      a.isDigit = true ∧ b.isDigit = true ∧ c.isDigit = true ∧
      d.isDigit = true ∧ g = [a, b, c, d] := by
  rcases ds with _ | ⟨s1, _ | ⟨a, _ | ⟨b, _ | ⟨c, _ | ⟨d, _ | ⟨s2, rest⟩⟩⟩⟩⟩⟩ <;>
    simp only [matchVisAt] at h <;>
    try exact Option.noConfusion h
  split at h
  · rename_i hcond
    simp only [Bool.and_eq_true, beq_iff_eq] at hcond
    obtain ⟨⟨⟨⟨⟨hs1, ha⟩, hb⟩, hc⟩, hd⟩, hs2⟩ := hcond
    simp only [Option.some.injEq] at h
    exact ⟨a, b, c, d, rest, by rw [hs1, hs2], ha, hb, hc, hd, h.symm⟩
  · exact absurd h (by simp)

theorem matchVisAt_pos {a b c d : Char} (rest : List Char)
    (ha : a.isDigit = true) (hb : b.isDigit = true) (hc : c.isDigit = true)
    (hd : d.isDigit = true) :
    matchVisAt (' ' :: a :: b :: c :: d :: ' ' :: rest) = some [a, b, c, d] := by
  simp [matchVisAt, ha, hb, hc, hd]

theorem matchVisAt_none_iff (ds : List Char) :
    matchVisAt ds = none ↔ ¬ StartsVis ds := by
  constructor
  · rintro h ⟨a, b, c, d, rest, rfl, ha, hb, hc, hd⟩
    rw [matchVisAt_pos rest ha hb hc hd] at h
    exact absurd h (by simp)
  · intro h
    cases hm : matchVisAt ds with
    | none => rfl
    | some g =>
      obtain ⟨a, b, c, d, rest, rfl, ha, hb, hc, hd, _⟩ := matchVisAt_shape hm
      exact absurd ⟨a, b, c, d, rest, rfl, ha, hb, hc, hd⟩ h

/-- The line starts with a ` Q\d{4}` pressure group. -/
def StartsQnh (ds : List Char) : Prop :=
  ∃ a b c d rest, ds = ' ' :: 'Q' :: a :: b :: c :: d :: rest ∧
    a.isDigit = true ∧ b.isDigit = true ∧ c.isDigit = true ∧ d.isDigit = true

/-- The line contains a ` Q\d{4}` pressure group somewhere. -/
def HasQnhPat (cs : List Char) : Prop := ∃ ds, ds <:+ cs ∧ StartsQnh ds

theorem matchQnhAt_shape {ds g : List Char}
    (h : matchQnhAt ds = some g) :
    ∃ a b c d rest, ds = ' ' :: 'Q' :: a :: b :: c :: d :: rest ∧
      a.isDigit = true ∧ b.isDigit = true ∧ c.isDigit = true ∧
      d.isDigit = true ∧ g = [a, b, c, d] := by
  rcases ds with _ | ⟨s, _ | ⟨q, _ | ⟨a, _ | ⟨b, _ | ⟨c, _ | ⟨d, rest⟩⟩⟩⟩⟩⟩ <;>
    simp only [matchQnhAt] at h <;>
    try exact Option.noConfusion h
  split at h
  · rename_i hcond
    simp only [Bool.and_eq_true, beq_iff_eq] at hcond
    obtain ⟨⟨⟨⟨⟨hs, hq⟩, ha⟩, hb⟩, hc⟩, hd⟩ := hcond
    simp only [Option.some.injEq] at h
    exact ⟨a, b, c, d, rest, by rw [hs, hq], ha, hb, hc, hd, h.symm⟩
  · exact absurd h (by simp)

theorem matchQnhAt_pos {a b c d : Char} (rest : List Char)
    (ha : a.isDigit = true) (hb : b.isDigit = true) (hc : c.isDigit = true)
    (hd : d.isDigit = true) :
    matchQnhAt (' ' :: 'Q' :: a :: b :: c :: d :: rest) = some [a, b, c, d] := by
  simp [matchQnhAt, ha, hb, hc, hd]

theorem matchQnhAt_none_iff (ds : List Char) :
    matchQnhAt ds = none ↔ ¬ StartsQnh ds := by
  constructor
  · rintro h ⟨a, b, c, d, rest, rfl, ha, hb, hc, hd⟩
    rw [matchQnhAt_pos rest ha hb hc hd] at h
    exact absurd h (by simp)
  · intro h
    cases hm : matchQnhAt ds with
    | none => rfl
    | some g =>
      obtain ⟨a, b, c, d, rest, rfl, ha, hb, hc, hd, _⟩ := matchQnhAt_shape hm
      exact absurd ⟨a, b, c, d, rest, rfl, ha, hb, hc, hd⟩ h

/-- An `M?\d{2}` temperature/dew-point group: two digits with an optional
leading `M` marker. -/
def TdGrp (g : List Char) : Prop :=
  ∃ d1 d2, (g = [d1, d2] ∨ g = ['M', d1, d2]) ∧
    d1.isDigit = true ∧ d2.isDigit = true

/-- The line starts with a ` M?\d{2}/M?\d{2}` temperature/dew-point
group. -/
def StartsTD (ds : List Char) : Prop :=
  ∃ g1 g2 rest, ds = ' ' :: (g1 ++ '/' :: (g2 ++ rest)) ∧ TdGrp g1 ∧ TdGrp g2

/-- The line contains a ` M?\d{2}/M?\d{2}` group somewhere. -/
def HasTDPat (cs : List Char) : Prop := ∃ ds, ds <:+ cs ∧ StartsTD ds

theorem tdNum_grp {g : List Char} (hg : TdGrp g) (rest : List Char) :
    tdNum (g ++ rest) = some (g, rest) := by
  obtain ⟨d1, d2, hshape, h1, h2⟩ := hg
  have hne : (d1 == 'M') = false := by
    simp [isDigit_ne h1 (by decide : ('M' : Char).isDigit = false)]
  rcases hshape with rfl | rfl
  · simp [tdNum, hne, h1, h2]
  · simp [tdNum, h1, h2]

theorem tdNum_shape {cs g rest : List Char} (h : tdNum cs = some (g, rest)) :
    TdGrp g ∧ cs = g ++ rest := by
  rcases cs with _ | ⟨c1, _ | ⟨c2, rest'⟩⟩ <;>
    simp only [tdNum] at h <;>
    try exact Option.noConfusion h
  by_cases hM : c1 = 'M'
  · subst hM
    rw [if_pos (by simp)] at h
    rcases rest' with _ | ⟨d2, rest2⟩
    · exact Option.noConfusion h
    · dsimp only at h
      split at h
      · rename_i hcond
        simp only [Bool.and_eq_true] at hcond
        simp only [Option.some.injEq, Prod.mk.injEq] at h
        refine ⟨⟨c2, d2, Or.inr h.1.symm, hcond.1, hcond.2⟩, ?_⟩
        rw [← h.1, ← h.2]
        rfl
      · exact Option.noConfusion h
  · rw [if_neg (by simp [hM])] at h
    split at h
    · rename_i hcond
      simp only [Bool.and_eq_true] at hcond
      simp only [Option.some.injEq, Prod.mk.injEq] at h
      refine ⟨⟨c1, c2, Or.inl h.1.symm, hcond.1, hcond.2⟩, ?_⟩
      rw [← h.1, ← h.2]
      rfl
    · exact Option.noConfusion h

theorem matchTDAt_pos {g1 g2 : List Char} (hg1 : TdGrp g1) (hg2 : TdGrp g2)
    (post : List Char) :
    matchTDAt (' ' :: (g1 ++ '/' :: (g2 ++ post))) = some (g1, g2) := by
  simp [matchTDAt, tdNum_grp hg1, tdNum_grp hg2]

theorem matchTDAt_shape {ds g1 g2 : List Char}
    (h : matchTDAt ds = some (g1, g2)) :
    ∃ rest, ds = ' ' :: (g1 ++ '/' :: (g2 ++ rest)) ∧ TdGrp g1 ∧ TdGrp g2 := by
  rcases ds with _ | ⟨c, rest⟩
  · exact Option.noConfusion h
  simp only [matchTDAt] at h
  by_cases hc : c = ' '
  swap
  · rw [if_neg (by simp [hc])] at h
    exact Option.noConfusion h
  subst hc
  rw [if_pos (by simp)] at h
  cases h1 : tdNum rest with
  | none => rw [h1] at h; exact Option.noConfusion h
  | some p1 =>
    obtain ⟨g1', rest1⟩ := p1
    rw [h1] at h
    dsimp only at h
    rcases rest1 with _ | ⟨c2, rest2⟩
    · exact Option.noConfusion h
    dsimp only at h
    by_cases h2 : c2 = '/'
    swap
    · rw [if_neg (by simp [h2])] at h
      exact Option.noConfusion h
    subst h2
    rw [if_pos (by simp)] at h
    cases h3 : tdNum rest2 with
    | none => rw [h3] at h; exact Option.noConfusion h
    | some p2 =>
      obtain ⟨g2', rest3⟩ := p2
      rw [h3] at h
      dsimp only at h
      simp only [Option.some.injEq, Prod.mk.injEq] at h
      obtain ⟨rfl, rfl⟩ : g1' = g1 ∧ g2' = g2 := h
      obtain ⟨hgrp1, rfl⟩ := tdNum_shape h1
      obtain ⟨hgrp2, rfl⟩ := tdNum_shape h3
      exact ⟨rest3, rfl, hgrp1, hgrp2⟩

theorem matchTDAt_none_iff (ds : List Char) :
    matchTDAt ds = none ↔ ¬ StartsTD ds := by
  constructor
  · rintro h ⟨g1, g2, rest, rfl, hg1, hg2⟩
    rw [matchTDAt_pos hg1 hg2 rest] at h
    exact absurd h (by simp)
  · intro h
    cases hm : matchTDAt ds with
    | none => rfl
    | some p =>
      obtain ⟨g1, g2⟩ := p
      obtain ⟨rest, rfl, hg1, hg2⟩ := matchTDAt_shape hm
      exact absurd ⟨g1, g2, rest, rfl, hg1, hg2⟩ h

/-- A nonempty `K`-free prefix fragment cannot host a wind-group match that
reaches into the group itself: the matcher needs `K` at offset 5, which
would fall either inside the fragment (no `K` there) or on one of the
group's digits. -/
theorem matchWindAt_before (t : List Char) (ht : t ≠ [])
    (hK : ∀ x ∈ t, x ≠ 'K') {a b c d e : Char} (post : List Char)
    (ha : a.isDigit = true) (hb : b.isDigit = true) (hc : c.isDigit = true)
    (hd : d.isDigit = true) (he : e.isDigit = true) :
    matchWindAt (t ++ a :: b :: c :: d :: e :: 'K' :: 'T' :: post) = none := by
  cases hm : matchWindAt (t ++ a :: b :: c :: d :: e :: 'K' :: 'T' :: post) with
  | none => rfl
  | some p =>
    exfalso
    obtain ⟨g1, g2⟩ := p
    obtain ⟨a', b', c', d', e', rest', heq, _, _, _, _, _, _, _⟩ :=
      matchWindAt_shape hm
    have h5 : (t ++ a :: b :: c :: d :: e :: 'K' :: 'T' :: post)[5]? =
        some 'K' := by rw [heq]; rfl
    by_cases hlen : 5 < t.length
    · rw [List.getElem?_append, if_pos hlen] at h5
      exact hK 'K' (List.getElem?_mem h5) rfl
    · push_neg at hlen
      rw [List.getElem?_append_right hlen] at h5
      have h1 : 1 ≤ t.length := List.length_pos.mpr ht
      have hjle : 5 - t.length ≤ 4 := by omega
      set j := 5 - t.length with hj
      interval_cases j
      · simp only [List.getElem?_cons_zero, Option.some.injEq] at h5
        exact isDigit_ne ha (by decide) h5
      · simp only [List.getElem?_cons_succ, List.getElem?_cons_zero,
          Option.some.injEq] at h5
        exact isDigit_ne hb (by decide) h5
      · simp only [List.getElem?_cons_succ, List.getElem?_cons_zero,
          Option.some.injEq] at h5
        exact isDigit_ne hc (by decide) h5
      · simp only [List.getElem?_cons_succ, List.getElem?_cons_zero,
          Option.some.injEq] at h5
        exact isDigit_ne hd (by decide) h5
      · simp only [List.getElem?_cons_succ, List.getElem?_cons_zero,
          Option.some.injEq] at h5
        exact isDigit_ne he (by decide) h5

/-- If no `M?\d{2}` reading of the tail is followed by `/`, the
temperature/dew-point matcher fails at a position whose head is a space. -/
theorem matchTDAt_tail_none {rest : List Char}
    (hrest : ∀ g1 rest1, tdNum rest = some (g1, rest1) →
      rest1.head? ≠ some '/') :
    matchTDAt (' ' :: rest) = none := by
  simp only [matchTDAt]
  rw [if_pos (by simp)]
  cases h1 : tdNum rest with
  | none => rfl
  | some p =>
    obtain ⟨g1, rest1⟩ := p
    dsimp only
    rcases rest1 with _ | ⟨c2, rest2⟩
    · rfl
    · dsimp only
      have hne := hrest g1 (c2 :: rest2) h1
      simp only [List.head?_cons, ne_eq, Option.some.injEq] at hne
      rw [if_neg (by simp [hne])]

/-- A position inside a slash-free fragment, with the true group's leading
space somewhere to its right, cannot produce a temperature/dew-point
match. -/
theorem matchTDAt_mid_space (t0 : Char) (t' g : List Char)
    (h : ∀ x ∈ t0 :: t', x ≠ '/') :
    matchTDAt (t0 :: (t' ++ ' ' :: g)) = none := by
  by_cases ht0 : t0 = ' '
  swap
  · rcases hm : matchTDAt (t0 :: (t' ++ ' ' :: g)) with _ | p
    · rfl
    · exfalso
      obtain ⟨g1, g2⟩ := p
      obtain ⟨rest, heq, _, _⟩ := matchTDAt_shape hm
      injection heq with h1 h2
      exact ht0 h1
  subst ht0
  have h' : ∀ x ∈ t', x ≠ '/' := fun x hx => h x (List.mem_cons_of_mem _ hx)
  apply matchTDAt_tail_none
  intro g1 rest1 h1
  obtain ⟨⟨d1, d2, hsh, hd1, hd2⟩, heq⟩ := tdNum_shape h1
  rcases t' with _ | ⟨u, _ | ⟨v, _ | ⟨w, _ | ⟨x, t''⟩⟩⟩⟩ <;>
    rcases hsh with rfl | rfl <;>
    simp only [List.cons_append, List.nil_append, List.cons.injEq,
      List.append_assoc] at heq
  · exact absurd (heq.1 ▸ hd1) (by decide)
  · exact absurd heq.1 (by decide)
  · exact absurd (heq.2.1 ▸ hd2) (by decide)
  · exact absurd (heq.2.1 ▸ hd1) (by decide)
  · rw [← heq.2.2]; simp
  · exact absurd (heq.2.2.1 ▸ hd2) (by decide)
  · rw [← heq.2.2]
    simp only [List.head?_cons, ne_eq, Option.some.injEq]
    exact h' w (by simp)
  · rw [← heq.2.2.2]; simp
  · rw [← heq.2.2]
    simp only [List.head?_cons, ne_eq, Option.some.injEq]
    exact h' w (by simp)
  · rw [← heq.2.2.2]
    simp only [List.head?_cons, ne_eq, Option.some.injEq]
    exact h' x (by simp)

theorem scanFind_of_pos {α : Type} (p : List Char → Option α)
    (cs : List Char) (a : α) (h : p cs = some a) : scanFind p cs = some a := by
  cases cs with
  | nil => exact h
  | cons c cs => rw [scanFind_cons, h]

theorem data_mk (l : List Char) : (String.mk l).data = l := rfl

/-- The two-digit `M?\d{2}` group with an explicit marker flag. -/
def tdGroup (m : Bool) (d1 d2 : Char) : List Char :=
  if m then ['M', d1, d2] else [d1, d2]

theorem tdGrp_tdGroup {d1 d2 : Char} (m : Bool)
    (h1 : d1.isDigit = true) (h2 : d2.isDigit = true) :
    TdGrp (tdGroup m d1 d2) := by
  cases m
  · exact ⟨d1, d2, Or.inl rfl, h1, h2⟩
  · exact ⟨d1, d2, Or.inr rfl, h1, h2⟩

theorem tempValue_tdGroup (m : Bool) (d1 d2 : Char)
    (h1 : d1.isDigit = true) :
    tempValue (tdGroup m d1 d2) =
      if m then -(10 * (digitVal d1 : Int) + (digitVal d2 : Int))
      else 10 * (digitVal d1 : Int) + (digitVal d2 : Int) := by
  cases m
  · show tempValue [d1, d2] = _
    have hne : d1 ≠ 'M' := isDigit_ne h1 (by decide)
    rcases hd : d1 with ⟨v⟩
    unfold tempValue
    split
    · rename_i ds heq
      injection heq with hx hy
      exact absurd (hd ▸ hx) (hd ▸ hne)
    · simp [natOfDigits, digitVal]
      ring
  · show tempValue ['M', d1, d2] = _
    simp only [tempValue, natOfDigits, List.foldl, if_true]
    push_cast
    ring

/-! ## Claim theorems -/

/-- C1: on the input line
`WIBB 251200Z 18010KT 6000 RA FEW018 27/24 Q1008` the field extractors
yield wind direction 180 and speed 10, visibility 6000, the rain flag set,
temperature 27, dew point 24 and pressure 1008. -/
theorem end_to_end_example_extraction :
    windVals "WIBB 251200Z 18010KT 6000 RA FEW018 27/24 Q1008" =
        some (180, 10) ∧
    visVal "WIBB 251200Z 18010KT 6000 RA FEW018 27/24 Q1008" = some 6000 ∧
    rainFlag "WIBB 251200Z 18010KT 6000 RA FEW018 27/24 Q1008" = true ∧
    tempDewVals "WIBB 251200Z 18010KT 6000 RA FEW018 27/24 Q1008" =
        some (27, 24) ∧
    qnhVal "WIBB 251200Z 18010KT 6000 RA FEW018 27/24 Q1008" = some 1008 := by
  refine ⟨by decide, by decide, by decide, by decide, by decide⟩

/-- C2 counterexample: the line `18010KT 6000 27/24 Q1008` has no `DDHHMMZ`
time group, yet the extractors do not return the unparseable sentinel — the
wind field is extracted normally and the record is rendered in full
(`src/app.py` never inspects the time group). -/
theorem time_group_not_required_cex :
    hasTimeGroup "18010KT 6000 27/24 Q1008" = false ∧
    wind "18010KT 6000 27/24 Q1008" = "180° / 10 kt" ∧
    wind "18010KT 6000 27/24 Q1008" ≠ "-" ∧
    "18010KT 6000 27/24 Q1008" ∈
      qamText "01 Jan 2026 0000 UTC" "18010KT 6000 27/24 Q1008" := by
  refine ⟨by decide, by decide, by decide, by decide⟩

/-- C2 (amended): the extractors never inspect the time group.  A line with
no `DDHHMMZ` group is not discarded: the full ten-line report is still
assembled with the raw line rendered in it, each field extractor producing
its own value or the `"-"` sentinel independently, and no exception is
raised (all extractors are total functions). -/
theorem extractors_ignore_time_group (now m : String)
    (_h : hasTimeGroup m = false) :
    m ∈ qamText now m ∧ (qamText now m).length = 10 := by
  refine ⟨?_, rfl⟩
  simp [qamText]

theorem extractors_ignore_time_group_witness :
    hasTimeGroup "18010KT" = false ∧
    ("18010KT" : String) ∈ qamText "X" "18010KT" ∧
    (qamText "X" "18010KT").length = 10 :=
  ⟨by decide, extractors_ignore_time_group "X" "18010KT" (by decide)⟩

/-- C3: a line of the form `pre ++ DDDSSKT ++ post`, where the prefix
contains no `K` (so the wind group shown is the leftmost one), is extracted
with direction the value of the first three digits and speed the value of
the next two. -/
theorem wind_group_extraction (pre post : List Char) (a b c d e : Char)
    (ha : a.isDigit = true) (hb : b.isDigit = true) (hc : c.isDigit = true)
    (hd : d.isDigit = true) (he : e.isDigit = true)
    (hK : 'K' ∉ pre) :
    windVals (String.mk (pre ++ a :: b :: c :: d :: e :: 'K' :: 'T' :: post)) =
      some (100 * digitVal a + 10 * digitVal b + digitVal c,
            10 * digitVal d + digitVal e) := by
  unfold windVals
  rw [data_mk,
    scanFind_append matchWindAt pre _ (fun t ht hne =>
      matchWindAt_before t hne
        (fun x hx hxK => hK (hxK ▸ ht.subset hx)) post ha hb hc hd he),
    scanFind_of_pos _ _ _ (matchWindAt_pos post ha hb hc hd he)]
  simp [natOfDigits]
  constructor <;> ring

theorem wind_group_extraction_witness :
    ('K' ∉ String.data "WIBB 251200Z ") ∧
    windVals (String.mk (String.data "WIBB 251200Z " ++
        '1' :: '8' :: '0' :: '1' :: '0' :: 'K' :: 'T' :: String.data " 6000")) =
      some (100 * digitVal '1' + 10 * digitVal '8' + digitVal '0',
            10 * digitVal '1' + digitVal '0') :=
  ⟨by decide, wind_group_extraction _ _ '1' '8' '0' '1' '0'
    (by decide) (by decide) (by decide) (by decide) (by decide) (by decide)⟩

/-- C4: for a temperature/dew-point group ` M?DD/M?DD` (prefix slash-free,
so this group is the leftmost match), each of the two numbers is read as a
negative integer of the digits' magnitude when its `M` marker is present
and as the positive magnitude when it is absent. -/
theorem temp_dew_sign_convention (pre post : List Char) (m1 m2 : Bool)
    (d1 d2 d3 d4 : Char)
    (h1 : d1.isDigit = true) (h2 : d2.isDigit = true)
    (h3 : d3.isDigit = true) (h4 : d4.isDigit = true)
    (hs : '/' ∉ pre) :
    tempDewVals (String.mk (pre ++ ' ' ::
        (tdGroup m1 d1 d2 ++ '/' :: (tdGroup m2 d3 d4 ++ post)))) =
      some
        (if m1 then -(10 * (digitVal d1 : Int) + (digitVal d2 : Int))
         else 10 * (digitVal d1 : Int) + (digitVal d2 : Int),
         if m2 then -(10 * (digitVal d3 : Int) + (digitVal d4 : Int))
         else 10 * (digitVal d3 : Int) + (digitVal d4 : Int)) := by
  unfold tempDewVals
  rw [data_mk,
    scanFind_append matchTDAt pre _ ?side,
    scanFind_of_pos _ _ _
      (matchTDAt_pos (tdGrp_tdGroup m1 h1 h2) (tdGrp_tdGroup m2 h3 h4) post)]
  · rw [Option.map_some']
    rw [tempValue_tdGroup m1 d1 d2 h1, tempValue_tdGroup m2 d3 d4 h3]
  case side =>
    intro t ht hne
    rcases t with _ | ⟨t0, t'⟩
    · exact absurd rfl hne
    · rw [List.cons_append]
      exact matchTDAt_mid_space t0 t' _
        (fun x hx hxs => hs (hxs ▸ ht.subset hx))

theorem temp_dew_sign_convention_witness :
    ('/' ∉ String.data "WIBB 251200Z 18010KT 9999") ∧
    tempDewVals (String.mk (String.data "WIBB 251200Z 18010KT 9999" ++ ' ' ::
        (tdGroup true '0' '2' ++ '/' :: (tdGroup true '0' '5' ++
          String.data " Q1020")))) =
      some
        (if true then -(10 * (digitVal '0' : Int) + (digitVal '2' : Int))
         else 10 * (digitVal '0' : Int) + (digitVal '2' : Int),
         if true then -(10 * (digitVal '0' : Int) + (digitVal '5' : Int))
         else 10 * (digitVal '0' : Int) + (digitVal '5' : Int)) :=
  ⟨by decide, temp_dew_sign_convention _ _ true true '0' '2' '0' '5'
    (by decide) (by decide) (by decide) (by decide) (by decide)⟩

/-- C5: each extractor is a total function (no exception for any input
string), and it returns the `"-"` unset sentinel exactly when its group is
absent from the line. -/
theorem extractors_unset_iff_absent (m : String) :
    (wind m = "-" ↔ ¬ HasWindPat m.data) ∧
    (visibility m = "-" ↔ ¬ HasVisPat m.data) ∧
    (temp_dew m = "-" ↔ ¬ HasTDPat m.data) ∧
    (qnh m = "-" ↔ ¬ HasQnhPat m.data) := by
  refine ⟨?_, ?_, ?_, ?_⟩
  · unfold wind
    cases hm : scanFind matchWindAt m.data with
    | none =>
      simp only [iff_true_intro rfl, true_iff]
      rintro ⟨ds, hds, hsw⟩
      exact (matchWindAt_none_iff ds).mp
        ((scanFind_eq_none_iff _ _).mp hm ds hds) hsw
    | some p =>
      obtain ⟨g1, g2⟩ := p
      obtain ⟨ds, hds, hpds⟩ := scanFind_eq_some _ _ _ hm
      obtain ⟨a, b, c, d, e, rest, hdseq, ha, hb, hc, hd, he, hg1, hg2⟩ :=
        matchWindAt_shape hpds
      constructor
      · intro hcontra
        dsimp only at hcontra
        have hlist := congrArg String.data hcontra
        rw [show String.data "-" = ['-'] from rfl, hg1] at hlist
        simp [data_mk] at hlist
      · intro hnot
        exact absurd ⟨ds, hds, a, b, c, d, e, rest, hdseq, ha, hb, hc, hd, he⟩
          hnot
  · unfold visibility
    cases hm : scanFind matchVisAt m.data with
    | none =>
      simp only [iff_true_intro rfl, true_iff]
      rintro ⟨ds, hds, hsw⟩
      exact (matchVisAt_none_iff ds).mp
        ((scanFind_eq_none_iff _ _).mp hm ds hds) hsw
    | some g =>
      obtain ⟨ds, hds, hpds⟩ := scanFind_eq_some _ _ _ hm
      obtain ⟨a, b, c, d, rest, hdseq, ha, hb, hc, hd, hg⟩ :=
        matchVisAt_shape hpds
      constructor
      · intro hcontra
        dsimp only at hcontra
        have hlist := congrArg String.data hcontra
        rw [show String.data "-" = ['-'] from rfl, hg] at hlist
        simp [data_mk] at hlist
      · intro hnot
        exact absurd ⟨ds, hds, a, b, c, d, rest, hdseq, ha, hb, hc, hd⟩ hnot
  · unfold temp_dew
    cases hm : scanFind matchTDAt m.data with
    | none =>
      simp only [iff_true_intro rfl, true_iff]
      rintro ⟨ds, hds, hsw⟩
      exact (matchTDAt_none_iff ds).mp
        ((scanFind_eq_none_iff _ _).mp hm ds hds) hsw
    | some p =>
      obtain ⟨g1, g2⟩ := p
      obtain ⟨ds, hds, hpds⟩ := scanFind_eq_some _ _ _ hm
      obtain ⟨rest, hdseq, hgrp1, hgrp2⟩ := matchTDAt_shape hpds
      constructor
      · intro hcontra
        dsimp only at hcontra
        have hlist := congrArg String.data hcontra
        rw [show String.data "-" = ['-'] from rfl] at hlist
        obtain ⟨d1, d2, hsh, -, -⟩ := hgrp1
        rcases hsh with rfl | rfl
        · simp [data_mk] at hlist
        · simp [data_mk] at hlist
      · intro hnot
        exact absurd ⟨ds, hds, g1, g2, rest, hdseq, hgrp1, hgrp2⟩ hnot
  · unfold qnh
    cases hm : scanFind matchQnhAt m.data with
    | none =>
      simp only [iff_true_intro rfl, true_iff]
      rintro ⟨ds, hds, hsw⟩
      exact (matchQnhAt_none_iff ds).mp
        ((scanFind_eq_none_iff _ _).mp hm ds hds) hsw
    | some g =>
      obtain ⟨ds, hds, hpds⟩ := scanFind_eq_some _ _ _ hm
      obtain ⟨a, b, c, d, rest, hdseq, ha, hb, hc, hd, hg⟩ :=
        matchQnhAt_shape hpds
      constructor
      · intro hcontra
        dsimp only at hcontra
        have hlist := congrArg String.data hcontra
        rw [show String.data "-" = ['-'] from rfl, hg] at hlist
        simp [data_mk] at hlist
      · intro hnot
        exact absurd ⟨ds, hds, a, b, c, d, rest, hdseq, ha, hb, hc, hd⟩ hnot

/-! ## PDF lemmas -/

theorem utf8Size_one_of_ascii {c : Char} (h : c.toNat < 128) :
    c.utf8Size = 1 := by
  unfold Char.utf8Size
  rw [if_pos]
  show c.val ≤ _
  rw [UInt32.le_def, BitVec.le_def]
  exact Nat.lt_succ_iff.mp h

theorem byteSize_eq_length {l : List Char} (h : ∀ c ∈ l, c.toNat < 128) :
    byteSize l = l.length := by
  induction l with
  | nil => rfl
  | cons c cs ih =>
    have hc : c.utf8Size = 1 := utf8Size_one_of_ascii (h c (by simp))
    have ihh := ih fun x hx => h x (List.mem_cons_of_mem _ hx)
    simp only [byteSize, List.map_cons, List.sum_cons, List.length_cons] at *
    omega

theorem pyReplaceChar_append (t : Char) (r l1 l2 : List Char) :
    pyReplaceChar t r (l1 ++ l2) =
      pyReplaceChar t r l1 ++ pyReplaceChar t r l2 := by
  induction l1 with
  | nil => rfl
  | cons c cs ih => simp [pyReplaceChar, ih, List.append_assoc]

theorem escape_cons (c : Char) (l : List Char) :
    escape (c :: l) = expandEsc c ++ escape l := by
  show pyReplaceChar ')' _ (pyReplaceChar '(' _ (pyReplaceChar '\\' _ (c :: l)))
      = _
  have h1 : pyReplaceChar '\\' ['\\', '\\'] (c :: l) =
      (if c == '\\' then ['\\', '\\'] else [c]) ++
        pyReplaceChar '\\' ['\\', '\\'] l := rfl
  rw [h1, pyReplaceChar_append, pyReplaceChar_append]
  show _ = expandEsc c ++ escape l
  congr 1
  by_cases hb : c = '\\'
  · subst hb; rfl
  · by_cases hp : c = '('
    · subst hp; rfl
    · by_cases hq : c = ')'
      · subst hq; rfl
      · have hb' : (c == '\\') = false := by simp [hb]
        have hp' : (c == '(') = false := by simp [hp]
        have hq' : (c == ')') = false := by simp [hq]
        simp [pyReplaceChar, expandEsc, hb', hp', hq']

theorem escape_mem {c : Char} {l : List Char} (h : c ∈ escape l) :
    c = '\\' ∨ c ∈ l := by
  induction l with
  | nil => exact absurd h (by simp [escape, pyReplaceChar])
  | cons a as ih =>
    rw [escape_cons] at h
    rcases List.mem_append.mp h with h1 | h1
    · unfold expandEsc at h1
      split at h1
      · simp only [List.mem_cons, List.not_mem_nil, or_false] at h1
        rcases h1 with rfl | rfl
        · exact Or.inl rfl
        · exact Or.inr (by simp)
      · simp only [List.mem_singleton] at h1
        subst h1
        exact Or.inr (by simp)
    · rcases ih h1 with h2 | h2
      · exact Or.inl h2
      · exact Or.inr (List.mem_cons_of_mem _ h2)

theorem lineSeg_data (s : String) :
    (lineSeg s).data =
      '(' :: (escape s.data ++ ')' :: String.data " Tj\n0 -14 Td\n") := by
  show (("(" ++ String.mk (escape s.data)) ++ ") Tj\n0 -14 Td\n").data = _
  rw [String.data_append, String.data_append, data_mk]
  rfl

theorem litScan_escape (l rest : List Char) :
    litScan (escape l ++ ')' :: rest) = some (l, rest) := by
  induction l with
  | nil =>
    show litScan (escape [] ++ ')' :: rest) = some ([], rest)
    rw [show escape [] = [] from rfl, List.nil_append, litScan.eq_def]
    simp
  | cons c l ih =>
    rw [escape_cons]
    by_cases hsp : (c == '\\' || c == '(' || c == ')') = true
    · rw [show expandEsc c = ['\\', c] from if_pos hsp]
      show litScan ('\\' :: c :: (escape l ++ ')' :: rest)) = _
      rw [litScan.eq_def]
      simp [ih]
    · rw [show expandEsc c = [c] from if_neg (by simp [hsp])]
      simp only [Bool.or_eq_true, not_or, Bool.not_eq_true] at hsp
      obtain ⟨⟨hb, hp⟩, hq⟩ := hsp
      show litScan (c :: (escape l ++ ')' :: rest)) = _
      rw [litScan.eq_def]
      simp [hb, hp, hq, ih]

theorem strConcat_nil : strConcat [] = "" := rfl

theorem strConcat_cons (s : String) (l : List String) :
    strConcat (s :: l) = s ++ strConcat l := rfl

theorem foldl_lineSeg (lines : List String) (init : String) :
    lines.foldl (fun acc l => acc ++ lineSeg l) init =
      init ++ strConcat (lines.map lineSeg) := by
  induction lines generalizing init with
  | nil => simp [strConcat_nil]
  | cons a as ih =>
    rw [List.foldl_cons, ih, List.map_cons, strConcat_cons,
      String.append_assoc]

theorem contentStr_eq (lines : List String) :
    contentStr lines =
      "BT\n/F1 10 Tf\n72 800 Td\n" ++ strConcat (lines.map lineSeg) ++ "ET" := by
  unfold contentStr
  rw [foldl_lineSeg]

theorem strConcat_data (l : List String) :
    (strConcat l).data = (l.map String.data).flatten := by
  induction l with
  | nil => rfl
  | cons a as ih =>
    rw [strConcat_cons, String.data_append, ih, List.map_cons, List.flatten_cons]

theorem contentStr_ascii (lines : List String)
    (h : ∀ l ∈ lines, ∀ c ∈ String.data l, c.toNat < 128) :
    ∀ c ∈ (contentStr lines).data, c.toNat < 128 := by
  intro c hc
  rw [contentStr_eq, String.data_append, String.data_append,
    strConcat_data] at hc
  rcases List.mem_append.mp hc with hc1 | hc1
  · rcases List.mem_append.mp hc1 with hc2 | hc2
    · exact (by decide :
        ∀ x ∈ String.data "BT\n/F1 10 Tf\n72 800 Td\n", x.toNat < 128) c hc2
    · rw [List.map_map] at hc2
      rcases List.mem_flatten.mp hc2 with ⟨piece, hpiece, hcp⟩
      rcases List.mem_map.mp hpiece with ⟨s, hs, rfl⟩
      rw [Function.comp_apply, lineSeg_data] at hcp
      rcases List.mem_cons.mp hcp with rfl | hcp2
      · decide
      · rcases List.mem_append.mp hcp2 with hc3 | hc3
        · rcases escape_mem hc3 with rfl | hc4
          · decide
          · exact h s hs c hc4
        · rcases List.mem_cons.mp hc3 with rfl | hc4
          · decide
          · exact (by decide :
              ∀ x ∈ String.data " Tj\n0 -14 Td\n", x.toNat < 128) c hc4
  · exact (by decide : ∀ x ∈ String.data "ET", x.toNat < 128) c hc1

/-! ## Claim theorems (PDF and network) -/

/-- The fixed-pitch (fixed-width) base fonts among the fourteen standard
PDF Type1 base fonts: the Courier family.  This is the reading of the
claim's phrase "fixed-width font" for a document, like this one, that
names a standard base font and embeds none. -/
def fixedPitchBaseFonts : List String :=
  ["Courier", "Courier-Bold", "Courier-Oblique", "Courier-BoldOblique"]

/-- C7 counterexample: the font resource hard-coded by `generate_pdf`
declares `/BaseFont /Helvetica`, a proportional font; no Courier-family
(fixed-pitch) font name occurs anywhere in the document, so the claimed
"one fixed-width font resource" is false already for the empty line
list. -/
theorem pdf_font_not_fixed_width_cex :
    hasSub (String.data "/BaseFont /Helvetica") (genPdf []).data = true ∧
    hasSub (String.data "Courier") (genPdf []).data = false ∧
    ("Helvetica" : String) ∉ fixedPitchBaseFonts :=
  ⟨by decide, by decide, by decide⟩

set_option maxRecDepth 4000 in
/-- C7 (amended): the emitted document is the fixed five-object graph —
one Type1 font resource whose base font is Helvetica (a proportional
font, not a fixed-width one), content stream, page, pages node, catalog,
in that order between the header and the fixed trailer — and the content
stream consists of the `BT` text header, exactly one positioned text
fragment per input line, and the closing `ET`, with no other layout. -/
theorem pdf_five_object_structure (lines : List String) :
    (pdfObjects lines).head? = some
      "1 0 obj<< /Type /Font /Subtype /Type1 /BaseFont /Helvetica >>endobj\n" ∧
    genPdf lines = "%PDF-1.4\n" ++ strConcat (pdfObjects lines) ++ pdfTail ∧
    (pdfObjects lines).length = 5 ∧
    contentStr lines =
      "BT\n/F1 10 Tf\n72 800 Td\n" ++ strConcat (lines.map lineSeg) ++ "ET" ∧
    (lines.map lineSeg).length = lines.length := by
  refine ⟨rfl, ?_, rfl, contentStr_eq lines, List.length_map _ _⟩
  apply String.ext
  unfold genPdf pdfObjects pdfTail
  simp only [strConcat_cons, strConcat_nil, String.data_append,
    List.append_assoc, String.append_empty, List.cons_append,
    List.nil_append]

/-- C8 counterexample: a METAR fetch failure (here a timeout) at line 68 of
`src/app.py` is not caught at its call site: the exception propagates out
of the tab-1 render instead of being surfaced as a static warning. -/
theorem metar_fetch_failure_propagates_cex :
    tab1Render "now" (Except.error NetErr.timeout) (Except.ok "img") =
      Except.error NetErr.timeout ∧
    ∀ page : Tab1Page,
      tab1Render "now" (Except.error NetErr.timeout) (Except.ok "img") ≠
        Except.ok page := by
  exact ⟨rfl, fun page h => Except.noConfusion h⟩

/-- C8 (amended): the satellite-image fetch failure is caught at its call
site (lines 112–117) and surfaced as the static
"temporarily unavailable" warning with no retry; the METAR fetch at line
68 is unguarded, so its failure propagates out of the render. -/
theorem satellite_failure_caught_metar_unguarded (now m : String)
    (e : NetErr) (sat : Except NetErr String) :
    tab1Render now (Except.ok m) (Except.error e) =
      Except.ok
        { qam := qamText now m
          rawShown := m
          satellite :=
            Widget.warning "Satellite imagery temporarily unavailable." } ∧
    tab1Render now (Except.error e) sat = Except.error e :=
  ⟨rfl, rfl⟩

/-- C9: for input lines made of ASCII characters only, the `/Length` value
declared in the stream dictionary equals the UTF-8 byte length of the
content placed between the `stream` and `endstream` keywords. -/
theorem pdf_declared_length_ascii (lines : List String)
    (h : ∀ l ∈ lines, ∀ c ∈ String.data l, c.toNat < 128) :
    declaredLen lines = byteSize (contentStr lines).data := by
  rw [byteSize_eq_length (contentStr_ascii lines h)]
  rfl

theorem pdf_declared_length_ascii_witness :
    (∀ l ∈ ["METEOROLOGICAL REPORT (QAM)", "QNH              : 1008 hPa"],
      ∀ c ∈ String.data l, c.toNat < 128) ∧
    declaredLen ["METEOROLOGICAL REPORT (QAM)", "QNH              : 1008 hPa"] =
      byteSize (contentStr
        ["METEOROLOGICAL REPORT (QAM)", "QNH              : 1008 hPa"]).data :=
  ⟨by decide,
   pdf_declared_length_ascii
     ["METEOROLOGICAL REPORT (QAM)", "QNH              : 1008 hPa"]
     (by decide)⟩

/-- C10: the escaping of line 88 doubles every backslash and puts a
backslash before every parenthesis, so the `({safe}) Tj` literal emitted by
`lineSeg` contains no unescaped parenthesis: a reader of the text literal
stops exactly at the closing delimiter and recovers the original line. -/
theorem pdf_literal_escaping (s : String) :
    escape s.data = (s.data.map expandEsc).flatten ∧
    (lineSeg s).data =
      '(' :: (escape s.data ++ ')' :: String.data " Tj\n0 -14 Td\n") ∧
    pdfLitParse (lineSeg s).data =
      some (s.data, String.data " Tj\n0 -14 Td\n") := by
  refine ⟨?_, lineSeg_data s, ?_⟩
  · induction s.data with
    | nil => rfl
    | cons c l ih => rw [escape_cons, ih, List.map_cons, List.flatten_cons]
  · rw [lineSeg_data]
    show litScan (escape s.data ++ ')' :: String.data " Tj\n0 -14 Td\n") = _
    exact litScan_escape s.data _

/-! ## CSV export round trip (claim C6)

Modelled from the spec: the `ObservationSeries` table, its CSV projection
(header row plus one line per observation, ISO-8601 timestamps, unset
fields as empty cells) and the re-parse of that CSV into the same column
types.  `src/app.py` performs the export through `df_sel.to_csv` (line
287); the table layout and the re-parser are not in the source and follow
§3 and §4.2 of the spec. -/

/-- Decimal representation of a natural number, most significant digit
first. -/
def natRepr (n : Nat) : List Char :=
  if _h : n < 10 then [Nat.digitChar n]
  else natRepr (n / 10) ++ [Nat.digitChar (n % 10)]
termination_by n
decreasing_by exact Nat.div_lt_self (by omega) (by omega)

/-- Digit-by-digit decimal reader with accumulator. -/
def parseNatAux (acc : Nat) : List Char → Option Nat
  | [] => some acc
  | c :: cs => if c.isDigit then parseNatAux (acc * 10 + digitVal c) cs
               else none

/-- Decimal reader: at least one digit required. -/
def parseNat (cs : List Char) : Option Nat :=
  match cs with
  | [] => none
  | _ => parseNatAux 0 cs

theorem digitChar_isDigit : ∀ n < 10, (Nat.digitChar n).isDigit = true := by
  decide

theorem digitVal_digitChar : ∀ n < 10, digitVal (Nat.digitChar n) = n := by
  decide

theorem natRepr_ne_nil (n : Nat) : natRepr n ≠ [] := by
  rw [natRepr]
  split
  · simp
  · simp

theorem mem_natRepr {c : Char} {n : Nat} (h : c ∈ natRepr n) :
    c.isDigit = true := by
  induction n using Nat.strong_induction_on with
  | _ n ih =>
    rw [natRepr] at h
    split at h
    · rename_i hlt
      simp only [List.mem_singleton] at h
      subst h
      exact digitChar_isDigit n hlt
    · rename_i hge
      rcases List.mem_append.mp h with h1 | h1
      · exact ih (n / 10) (Nat.div_lt_self (by omega) (by omega)) h1
      · simp only [List.mem_singleton] at h1
        subst h1
        exact digitChar_isDigit (n % 10) (Nat.mod_lt _ (by omega))

theorem parseNatAux_natRepr (n : Nat) : ∀ acc rest,
    parseNatAux acc (natRepr n ++ rest) =
      parseNatAux (acc * 10 ^ (natRepr n).length + n) rest := by
  induction n using Nat.strong_induction_on with
  | _ n ih =>
    intro acc rest
    rw [natRepr]
    split
    · rename_i hlt
      simp only [List.singleton_append, List.length_singleton, pow_one,
        parseNatAux, digitChar_isDigit n hlt, if_true,
        digitVal_digitChar n hlt, List.nil_append]
      rfl
    · rename_i hge
      rw [List.append_assoc, List.singleton_append,
        ih (n / 10) (Nat.div_lt_self (by omega) (by omega)),
        parseNatAux]
      have hd : (Nat.digitChar (n % 10)).isDigit = true :=
        digitChar_isDigit _ (Nat.mod_lt _ (by omega))
      rw [if_pos hd, digitVal_digitChar _ (Nat.mod_lt _ (by omega))]
      have hlen : (natRepr (n / 10) ++ [Nat.digitChar (n % 10)]).length =
          (natRepr (n / 10)).length + 1 := by simp
      rw [hlen]
      congr 1
      have := Nat.div_add_mod n 10
      ring_nf
      omega

theorem parseNat_natRepr (n : Nat) : parseNat (natRepr n) = some n := by
  obtain ⟨c, cs, hshape⟩ : ∃ c cs, natRepr n = c :: cs := by
    cases h : natRepr n with
    | nil => exact absurd h (natRepr_ne_nil n)
    | cons c cs => exact ⟨c, cs, rfl⟩
  rw [hshape]
  show parseNatAux 0 (c :: cs) = some n
  rw [← hshape, ← List.append_nil (natRepr n), parseNatAux_natRepr]
  simp [parseNatAux]

/-- Decimal representation of an integer, with a leading `-` sign when
negative. -/
def intRepr (i : Int) : List Char :=
  if i < 0 then '-' :: natRepr i.natAbs else natRepr i.natAbs

/-- Signed decimal reader. -/
def parseInt (cs : List Char) : Option Int :=
  match cs with
  | [] => none
  | c :: cs2 =>
    if c == '-' then (parseNat cs2).map fun n => -(n : Int)
    else (parseNat (c :: cs2)).map fun n => (n : Int)

theorem mem_intRepr {c : Char} {i : Int} (h : c ∈ intRepr i) :
    c = '-' ∨ c.isDigit = true := by
  unfold intRepr at h
  split at h
  · rcases List.mem_cons.mp h with rfl | h1
    · exact Or.inl rfl
    · exact Or.inr (mem_natRepr h1)
  · exact Or.inr (mem_natRepr h)

theorem parseInt_intRepr (i : Int) : parseInt (intRepr i) = some i := by
  unfold intRepr
  split
  · rename_i hneg
    show parseInt ('-' :: natRepr i.natAbs) = some i
    rw [show parseInt ('-' :: natRepr i.natAbs) =
        (parseNat (natRepr i.natAbs)).map (fun n => -(n : Int)) by
      rfl]
    rw [parseNat_natRepr]
    show some (-(i.natAbs : Int)) = some i
    exact congrArg some (by omega)
  · rename_i hpos
    obtain ⟨c, cs, hshape⟩ : ∃ c cs, natRepr i.natAbs = c :: cs := by
      cases h : natRepr i.natAbs with
      | nil => exact absurd h (natRepr_ne_nil _)
      | cons c cs => exact ⟨c, cs, rfl⟩
    have hdig : c.isDigit = true := mem_natRepr (hshape ▸ List.mem_cons_self c cs)
    have hnm : (c == '-') = false := by
      simp [isDigit_ne hdig (by decide : ('-' : Char).isDigit = false)]
    rw [hshape]
    show parseInt (c :: cs) = some i
    rw [show parseInt (c :: cs) =
        (parseNat (c :: cs)).map (fun n => (n : Int)) by
      simp [parseInt, hnm]]
    rw [← hshape, parseNat_natRepr]
    show some ((i.natAbs : Int)) = some i
    exact congrArg some (by omega)

/-- Two-digit zero-padded field of an ISO-8601 timestamp. -/
def pad2 (n : Nat) : List Char :=
  [Nat.digitChar (n / 10 % 10), Nat.digitChar (n % 10)]

/-- Four-digit zero-padded year field. -/
def pad4 (n : Nat) : List Char := pad2 (n / 100) ++ pad2 (n % 100)

/-- Reader for one two-digit field. -/
def parse2 (a b : Char) : Option Nat :=
  if a.isDigit && b.isDigit then some (10 * digitVal a + digitVal b)
  else none

theorem parse2_pad2 : ∀ n < 100,
    parse2 (Nat.digitChar (n / 10 % 10)) (Nat.digitChar (n % 10)) = some n := by
  decide

theorem mem_pad2 {c : Char} {n : Nat} (h : c ∈ pad2 n) : c.isDigit = true := by
  rcases List.mem_cons.mp h with rfl | h1
  · exact digitChar_isDigit _ (Nat.mod_lt _ (by omega))
  · simp only [List.mem_singleton] at h1
    subst h1
    exact digitChar_isDigit _ (Nat.mod_lt _ (by omega))

/-- Modelled from the spec: one typed row of the exported table — the
`ParsedObservation` of §3, with a full timestamp, the optional integer
fields (unset allowed) and the three phenomena flags. -/
structure ParsedObservation where
  year : Nat
  month : Nat
  day : Nat
  hour : Nat
  minute : Nat
  wind_direction_degrees : Option Int
  wind_speed_knots : Option Int
  visibility_meters : Option Int
  temperature_celsius : Option Int
  dew_point_celsius : Option Int
  pressure_hpa : Option Int
  rain : Bool
  thunderstorm : Bool
  fog : Bool
deriving DecidableEq

/-- The timestamp fields fit their fixed digit widths. -/
def ValidObs (o : ParsedObservation) : Prop :=
  o.year < 10000 ∧ o.month < 100 ∧ o.day < 100 ∧ o.hour < 100 ∧
    o.minute < 100

instance (o : ParsedObservation) : Decidable (ValidObs o) := by
  unfold ValidObs
  infer_instance

/-- ISO-8601 rendering `YYYY-MM-DDTHH:MM` of the observation time. -/
def isoTs (o : ParsedObservation) : List Char :=
  pad4 o.year ++ '-' :: (pad2 o.month ++ '-' :: (pad2 o.day ++
    'T' :: (pad2 o.hour ++ ':' :: pad2 o.minute)))

/-- Reader for the ISO-8601 timestamp cell. -/
def parseIsoTs (cs : List Char) :
    Option (Nat × Nat × Nat × Nat × Nat) :=
  match cs with
  | y1 :: y2 :: y3 :: y4 :: '-' :: m1 :: m2 :: '-' :: d1 :: d2 ::
      'T' :: h1 :: h2 :: ':' :: n1 :: n2 :: [] =>
    match parse2 y1 y2, parse2 y3 y4, parse2 m1 m2, parse2 d1 d2,
        parse2 h1 h2, parse2 n1 n2 with
    | some ya, some yb, some mo, some da, some ho, some mi =>
      some (ya * 100 + yb, mo, da, ho, mi)
    | _, _, _, _, _, _ => none
  | _ => none

/-- An unset field exports as the empty cell, a set field as its decimal
rendering. -/
def optIntCell : Option Int → List Char
  | none => []
  | some i => intRepr i

/-- Reader for an optional integer cell: empty means unset. -/
def parseOptIntCell (cs : List Char) : Option (Option Int) :=
  match cs with
  | [] => some none
  | _ => (parseInt cs).map some

/-- A phenomena flag exports as `true`/`false`. -/
def boolCell (b : Bool) : List Char :=
  if b then String.data "true" else String.data "false"

/-- Reader for a flag cell. -/
def parseBoolCell (cs : List Char) : Option Bool :=
  if cs = String.data "true" then some true
  else if cs = String.data "false" then some false
  else none

/-- The header row of the exported CSV. -/
def csvHeader : List Char :=
  String.data
    "observed_at,wind_direction_degrees,wind_speed_knots,visibility_meters,temperature_celsius,dew_point_celsius,pressure_hpa,rain,thunderstorm,fog"

/-- One CSV data row: the timestamp and the nine field cells, comma
separated. -/
def rowOf (o : ParsedObservation) : List Char :=
  isoTs o ++ ',' :: (optIntCell o.wind_direction_degrees ++
    ',' :: (optIntCell o.wind_speed_knots ++
    ',' :: (optIntCell o.visibility_meters ++
    ',' :: (optIntCell o.temperature_celsius ++
    ',' :: (optIntCell o.dew_point_celsius ++
    ',' :: (optIntCell o.pressure_hpa ++
    ',' :: (boolCell o.rain ++
    ',' :: (boolCell o.thunderstorm ++
    ',' :: boolCell o.fog))))))))

/-- The row-major CSV projection of an observation series: the header row
and one newline-prefixed line per observation. -/
def toCsv (series : List ParsedObservation) : List Char :=
  csvHeader ++ (series.map fun o => '\n' :: rowOf o).flatten

/-- Split a character list at every occurrence of the separator. -/
def splitCh (c : Char) : List Char → List (List Char)
  | [] => [[]]
  | d :: ds =>
    match splitCh c ds with
    | [] => [[]]
    | r :: rs => if d == c then [] :: r :: rs else (d :: r) :: rs

theorem splitCh_not_mem {c : Char} {cs : List Char} (h : c ∉ cs) :
    splitCh c cs = [cs] := by
  induction cs with
  | nil => rfl
  | cons d ds ih =>
    have hd : (d == c) = false := by
      simp only [beq_eq_false_iff_ne, ne_eq]
      intro he
      exact h (he ▸ List.mem_cons_self d ds)
    rw [splitCh, ih fun hm => h (List.mem_cons_of_mem _ hm), hd]
    simp

theorem splitCh_append {c : Char} {xs : List Char} (rest : List Char)
    (h : c ∉ xs) :
    splitCh c (xs ++ c :: rest) = xs :: splitCh c rest := by
  induction xs with
  | nil =>
    rw [List.nil_append, splitCh]
    cases hs : splitCh c rest with
    | nil =>
      exfalso
      induction rest with
      | nil => exact List.noConfusion hs
      | cons e es _ =>
        rw [splitCh] at hs
        revert hs
        split
        · intro hs; exact List.noConfusion hs
        · split <;> (intro hs; exact List.noConfusion hs)
    | cons r rs => simp
  | cons d ds ih =>
    have hd : (d == c) = false := by
      simp only [beq_eq_false_iff_ne, ne_eq]
      intro he
      exact h (he ▸ List.mem_cons_self d ds)
    rw [List.cons_append, splitCh,
      ih fun hm => h (List.mem_cons_of_mem _ hm), hd]
    simp

theorem splitCh_build (c : Char) (head : List Char)
    (parts : List (List Char)) (hh : c ∉ head)
    (h : ∀ p ∈ parts, c ∉ p) :
    splitCh c (head ++ (parts.map fun p => c :: p).flatten) =
      head :: parts := by
  induction parts generalizing head with
  | nil =>
    rw [List.map_nil, List.flatten_nil, List.append_nil, splitCh_not_mem hh]
  | cons p ps ih =>
    rw [List.map_cons, List.flatten_cons, List.cons_append,
      splitCh_append _ hh,
      ih p (h p (List.mem_cons_self _ _))
        fun q hq => h q (List.mem_cons_of_mem _ hq)]

/-- Reader for one CSV data row. -/
def parseRow (cs : List Char) : Option ParsedObservation :=
  match splitCh ',' cs with
  | [ts, w1, w2, v, t, dp, q, r, th, f] =>
    match parseIsoTs ts, parseOptIntCell w1, parseOptIntCell w2,
        parseOptIntCell v, parseOptIntCell t, parseOptIntCell dp,
        parseOptIntCell q, parseBoolCell r, parseBoolCell th,
        parseBoolCell f with
    | some (y, mo, da, ho, mi), some a, some b, some c2, some d2, some e2,
        some f2, some g2, some h2, some i2 =>
      some ⟨y, mo, da, ho, mi, a, b, c2, d2, e2, f2, g2, h2, i2⟩
    | _, _, _, _, _, _, _, _, _, _ => none
  | _ => none

/-- Reader for the data rows, failing when any row fails. -/
def parseRows : List (List Char) → Option (List ParsedObservation)
  | [] => some []
  | r :: rs =>
    match parseRow r, parseRows rs with
    | some o, some os => some (o :: os)
    | _, _ => none

/-- Reader for the whole CSV document: header line, then data rows. -/
def parseCsv (cs : List Char) : Option (List ParsedObservation) :=
  match splitCh '\n' cs with
  | header :: rows =>
    if header = csvHeader then parseRows rows else none
  | [] => none

theorem mem_isoTs {c : Char} {o : ParsedObservation} (h : c ∈ isoTs o) :
    c.isDigit = true ∨ c = '-' ∨ c = 'T' ∨ c = ':' := by
  unfold isoTs pad4 at h
  simp only [List.mem_append, List.mem_cons, List.append_assoc] at h
  rcases h with h | h | rfl | h | rfl | h | rfl | h | rfl | h
  · exact Or.inl (mem_pad2 h)
  · exact Or.inl (mem_pad2 h)
  · exact Or.inr (Or.inl rfl)
  · exact Or.inl (mem_pad2 h)
  · exact Or.inr (Or.inl rfl)
  · exact Or.inl (mem_pad2 h)
  · exact Or.inr (Or.inr (Or.inl rfl))
  · exact Or.inl (mem_pad2 h)
  · exact Or.inr (Or.inr (Or.inr rfl))
  · exact Or.inl (mem_pad2 h)

theorem isoTs_sep {c : Char} {o : ParsedObservation} (h : c ∈ isoTs o) :
    c ≠ ',' ∧ c ≠ '\n' := by
  rcases mem_isoTs h with hd | rfl | rfl | rfl
  · exact ⟨isDigit_ne hd (by decide), isDigit_ne hd (by decide)⟩
  · exact ⟨by decide, by decide⟩
  · exact ⟨by decide, by decide⟩
  · exact ⟨by decide, by decide⟩

theorem optIntCell_sep {c : Char} {v : Option Int} (h : c ∈ optIntCell v) :
    c ≠ ',' ∧ c ≠ '\n' := by
  cases v with
  | none => exact absurd h (by simp [optIntCell])
  | some i =>
    rcases mem_intRepr h with rfl | hd
    · exact ⟨by decide, by decide⟩
    · exact ⟨isDigit_ne hd (by decide), isDigit_ne hd (by decide)⟩

theorem boolCell_sep {c : Char} {b : Bool} (h : c ∈ boolCell b) :
    c ≠ ',' ∧ c ≠ '\n' := by
  cases b
  · exact (by decide :
      ∀ x ∈ String.data "false", x ≠ ',' ∧ x ≠ '\n') c h
  · exact (by decide :
      ∀ x ∈ String.data "true", x ≠ ',' ∧ x ≠ '\n') c h

theorem isoTs_no_comma (o : ParsedObservation) : ',' ∉ isoTs o :=
  fun h => (isoTs_sep h).1 rfl

theorem optIntCell_no_comma (v : Option Int) : ',' ∉ optIntCell v :=
  fun h => (optIntCell_sep h).1 rfl

theorem boolCell_no_comma (b : Bool) : ',' ∉ boolCell b :=
  fun h => (boolCell_sep h).1 rfl

theorem rowOf_no_newline (o : ParsedObservation) : '\n' ∉ rowOf o := by
  intro h
  unfold rowOf at h
  simp only [List.mem_append, List.mem_cons] at h
  rcases h with h|h|h|h|h|h|h|h|h|h|h|h|h|h|h|h|h|h|h <;>
    first
      | exact (isoTs_sep h).2 rfl
      | exact (optIntCell_sep h).2 rfl
      | exact (boolCell_sep h).2 rfl
      | exact absurd h (by decide)

theorem splitCh_rowOf (o : ParsedObservation) :
    splitCh ',' (rowOf o) =
      [isoTs o, optIntCell o.wind_direction_degrees,
       optIntCell o.wind_speed_knots, optIntCell o.visibility_meters,
       optIntCell o.temperature_celsius, optIntCell o.dew_point_celsius,
       optIntCell o.pressure_hpa, boolCell o.rain,
       boolCell o.thunderstorm, boolCell o.fog] := by
  unfold rowOf
  rw [splitCh_append _ (isoTs_no_comma o),
    splitCh_append _ (optIntCell_no_comma _),
    splitCh_append _ (optIntCell_no_comma _),
    splitCh_append _ (optIntCell_no_comma _),
    splitCh_append _ (optIntCell_no_comma _),
    splitCh_append _ (optIntCell_no_comma _),
    splitCh_append _ (optIntCell_no_comma _),
    splitCh_append _ (boolCell_no_comma _),
    splitCh_append _ (boolCell_no_comma _),
    splitCh_not_mem (boolCell_no_comma _)]

theorem intRepr_ne_nil (i : Int) : intRepr i ≠ [] := by
  unfold intRepr
  split
  · simp
  · exact natRepr_ne_nil _

theorem parseOptIntCell_optIntCell (v : Option Int) :
    parseOptIntCell (optIntCell v) = some v := by
  cases v with
  | none => rfl
  | some i =>
    show parseOptIntCell (intRepr i) = some (some i)
    cases hsh : intRepr i with
    | nil => exact absurd hsh (intRepr_ne_nil i)
    | cons c cs =>
      show (parseInt (c :: cs)).map some = some (some i)
      rw [← hsh, parseInt_intRepr]
      rfl

theorem parseBoolCell_boolCell (b : Bool) :
    parseBoolCell (boolCell b) = some b := by
  cases b <;> decide

theorem parseIsoTs_isoTs (o : ParsedObservation) (h : ValidObs o) :
    parseIsoTs (isoTs o) =
      some (o.year, o.month, o.day, o.hour, o.minute) := by
  obtain ⟨hy, hmo, hd, hh, hmi⟩ := h
  unfold isoTs pad4 pad2
  simp only [List.cons_append, List.nil_append]
  rw [parseIsoTs]
  rw [parse2_pad2 (o.year / 100) (by omega),
    parse2_pad2 (o.year % 100) (by omega),
    parse2_pad2 o.month hmo, parse2_pad2 o.day hd,
    parse2_pad2 o.hour hh, parse2_pad2 o.minute hmi]
  dsimp only
  have : o.year / 100 * 100 + o.year % 100 = o.year := by omega
  rw [this]

theorem parseRow_rowOf (o : ParsedObservation) (h : ValidObs o) :
    parseRow (rowOf o) = some o := by
  unfold parseRow
  rw [splitCh_rowOf]
  dsimp only
  rw [parseIsoTs_isoTs o h, parseOptIntCell_optIntCell,
    parseOptIntCell_optIntCell, parseOptIntCell_optIntCell,
    parseOptIntCell_optIntCell, parseOptIntCell_optIntCell,
    parseOptIntCell_optIntCell, parseBoolCell_boolCell,
    parseBoolCell_boolCell, parseBoolCell_boolCell]

theorem parseRows_map (series : List ParsedObservation)
    (h : ∀ o ∈ series, ValidObs o) :
    parseRows (series.map rowOf) = some series := by
  induction series with
  | nil => rfl
  | cons o os ih =>
    rw [List.map_cons, parseRows,
      parseRow_rowOf o (h o (List.mem_cons_self _ _)),
      ih fun q hq => h q (List.mem_cons_of_mem _ hq)]

set_option maxRecDepth 2000 in
/-- C6: exporting an observation series to CSV (header row, one line per
observation, ISO-8601 timestamps, unset fields as empty cells) and
re-parsing that CSV back into the same column types reproduces exactly the
original series. -/
theorem csv_round_trip (series : List ParsedObservation)
    (h : ∀ o ∈ series, ValidObs o) :
    parseCsv (toCsv series) = some series := by
  unfold parseCsv toCsv
  have hmap : (series.map fun o => '\n' :: rowOf o) =
      ((series.map rowOf).map fun p => '\n' :: p) := by
    rw [List.map_map]
    rfl
  rw [hmap,
    splitCh_build '\n' csvHeader (series.map rowOf) (by decide)
      (fun p hp => by
        rcases List.mem_map.mp hp with ⟨o, _, rfl⟩
        exact rowOf_no_newline o)]
  dsimp only
  rw [if_pos rfl]
  exact parseRows_map series h

set_option maxRecDepth 8000 in
theorem csv_round_trip_witness :
    (∀ o ∈ ([⟨2026, 1, 25, 12, 0, some 180, some 10, some 6000, some 27,
        some 24, some 1008, true, false, false⟩,
      ⟨2026, 1, 25, 13, 0, none, none, some 9999, some (-2), some (-5),
        some 1020, false, false, true⟩] : List ParsedObservation),
      ValidObs o) ∧
    parseCsv (toCsv ([⟨2026, 1, 25, 12, 0, some 180, some 10, some 6000,
        some 27, some 24, some 1008, true, false, false⟩,
      ⟨2026, 1, 25, 13, 0, none, none, some 9999, some (-2), some (-5),
        some 1020, false, false, true⟩] : List ParsedObservation)) =
      some [⟨2026, 1, 25, 12, 0, some 180, some 10, some 6000, some 27,
        some 24, some 1008, true, false, false⟩,
      ⟨2026, 1, 25, 13, 0, none, none, some 9999, some (-2), some (-5),
        some 1020, false, false, true⟩] :=
  ⟨by decide, csv_round_trip _ (by decide)⟩

end Metaf
